import Mathlib

/-!
Shallow embedding of the download-and-fallback acquisition routine in
`src/bdi_api/s4/exercise.py` (`download_data` and `prepare_data`), together
with theorems checking the specification's claims about it.

The HTTP client, the HTML parser and the S3 client are external
collaborators; they are modelled by their contracts:
  * the parsed HTML page is a list of nodes, anchors carrying an optional
    `href` attribute (what `soup.find_all("a")` and `a.get("href")` expose);
  * the remote source is a function from URL to a fetch result, which is
    either a response (status code and body) or a raised network exception;
  * the object store is a key/value map, written as an association list with
    overwrite-on-put semantics.
All string manipulation (`startswith`, `in`, `split`, f-string padding,
list slicing) is translated directly from the Python source.
-/

namespace S4

/-- Python's `needle.isPrefixOf hay` on character lists: translation of the
prefix test underlying `str.startswith`. -/
def listStarts : List Char → List Char → Bool
  | [], _ => true
  | _ :: _, [] => false
  | p :: ps, c :: cs => p == c && listStarts ps cs

/-- Python `s.startswith(p)`. -/
def pyStartsWith (s p : String) : Bool := listStarts p.data s.data

/-- Substring search on character lists: `needle` occurs somewhere in the
list. -/
def listContains (needle : List Char) : List Char → Bool
  | [] => needle.isEmpty
  | c :: cs => listStarts needle (c :: cs) || listContains needle cs

/-- Python `needle in hay` on strings. -/
def strContains (hay needle : String) : Bool := listContains needle.data hay.data

/-- One node of the parsed HTML document: an anchor tag with an optional
`href` attribute, or any other markup. -/
inductive Node
  | anchor (href : Option String)
  | other
deriving DecidableEq

/-- The filter applied to each anchor's `href` by the list comprehension
`if a.get("href") and ".json" in a.get("href")`: the attribute must be
truthy (non-empty) and contain the `.json` marker. -/
def hrefQualifies (h : String) : Bool := !h.isEmpty && strContains h ".json"

/-- Page Link Extractor, line 55 of `exercise.py`:
`[a.get("href") for a in soup.find_all("a") if a.get("href") and ".json" in a.get("href")]`. -/
def pageLinks (doc : List Node) : List String :=
  doc.filterMap fun n =>
    match n with
    | .anchor (some h) => if hrefQualifies h then some h else none
    | _ => none

/-- The `href` values of all anchors that carry one, in document order
(no content filter). -/
def anchorHrefs (doc : List Node) : List String :=
  doc.filterMap fun n =>
    match n with
    | .anchor (some h) => some h
    | _ => none

/-- Python's `f"{n:02d}"` for a natural number: left-pad with zeros to
width 2. -/
def pad2 (n : Nat) : String := if n < 10 then "0" ++ toString n else toString n

/-- The generated filename `f"{h:02d}{m:02d}{s:02d}Z.json.gz"`. -/
def fileName (h m s : Nat) : String := pad2 h ++ pad2 m ++ pad2 s ++ "Z.json.gz"

/-- Deterministic Fallback Generator, lines 61-64 of `exercise.py`:
`for h in range(24): for m in range(60): for s in range(0, 60, 5): append(...)`. -/
def fallbackLinks : List String :=
  (List.range 24).flatMap fun h =>
    (List.range 60).flatMap fun m =>
      (List.range' 0 12 5).map fun s => fileName h m s

/-- The candidate list after the fallback branch, lines 55-64:
extraction result if non-empty, otherwise the generated enumeration. -/
def candidates (doc : List Node) : List String :=
  if (pageLinks doc).isEmpty then fallbackLinks else pageLinks doc

/-- Python list slicing `xs[:n]` for a possibly negative `n`. -/
def pySliceTo (xs : List α) (n : Int) : List α :=
  if 0 ≤ n then xs.take n.toNat
  else xs.take ((xs.length : Int) + n).toNat

/-- `links_to_download = all_links[:file_limit]`, line 68. -/
def linksToDownload (doc : List Node) (file_limit : Int) : List String :=
  pySliceTo (candidates doc) file_limit

/-- Result of fetching one URL: a response with status and body, or a raised
network-level exception. -/
inductive FetchResult
  | resp (statusCode : Nat) (body : String)
  | exc
deriving DecidableEq

/-- The object store: an association list of (key, body) with
overwrite-on-put semantics. -/
def Store := List (String × String)
deriving DecidableEq

/-- Write-by-key into the store, overwriting any previous object at the
same key (S3 `upload_fileobj` contract). -/
def storePut (st : Store) (k v : String) : Store :=
  (k, v) :: List.filter (fun p => p.1 ≠ k) st

/-- Read-by-key from the store. -/
def storeGet (st : Store) (k : String) : Option String :=
  (List.find? (fun p => p.1 = k) st).map (fun p => p.2)

/-- The keys currently present in the store. -/
def keys (st : Store) : List String := List.map (fun p => p.1) st

/-- Outcome of a run of the batch loop: normal completion with the final
store and the `downloaded_count`, or an uncaught exception (carrying the
store and count at the moment it was raised). -/
inductive RunResult
  | ok (st : Store) (count : Nat)
  | raised (st : Store) (count : Nat)
deriving DecidableEq

/-- URL resolution, line 73:
`file_url = filename if filename.startswith("http") else base_url + filename`. -/
def resolveURL (base name : String) : String :=
  if pyStartsWith name "http" then name else base ++ name

/-- Python `str.split(sep)` for a one-character separator, on character
lists: always returns at least one (possibly empty) group. -/
def splitChar (sep : Char) : List Char → List (List Char)
  | [] => [[]]
  | c :: cs =>
    if c = sep then [] :: splitChar sep cs
    else
      match splitChar sep cs with
      | [] => [[c]]
      | g :: gs => (c :: g) :: gs

/-- `s3_filename = filename.split("/")[-1]`, line 74. -/
def lastSegment (name : String) : String := ⟨(splitChar '/' name.data).getLastD []⟩

/-- `s3_key = f"{s3_prefix_path}{s3_filename}"` with the fixed
`s3_prefix_path = "raw/day=20231101/"`, lines 41 and 79. -/
def keyFor (name : String) : String := "raw/day=20231101/" ++ lastSegment name

/-- Bounded Batch Fetcher loop, lines 72-85 of `exercise.py`. Each item is
fetched; a raised exception is not caught and aborts the loop; a 200
response is stored under `keyFor` and counted; any other status is skipped.
-/
def batchFetch (remote : String → FetchResult) (base : String) :
    List String → Store → Nat → RunResult
  | [], st, c => .ok st c
  | name :: rest, st, c =>
    match remote (resolveURL base name) with
    | .exc => .raised st c
    | .resp s body =>
      if s = 200 then
        batchFetch remote base rest (storePut st (keyFor name) body) (c + 1)
      else
        batchFetch remote base rest st c

/-- The `download_data` endpoint body (after the listing page has been
fetched and parsed into `doc`): extract, fall back, truncate, fetch. -/
def download_data (doc : List Node) (remote : String → FetchResult)
    (base : String) (file_limit : Int) (st : Store) : RunResult :=
  batchFetch remote base (linksToDownload doc file_limit) st 0

/-- What the HTTP caller receives: the string "OK" if the run completed,
nothing (an error response) if an exception propagated. -/
def downloadResponse : RunResult → Option String
  | .ok _ _ => some "OK"
  | .raised _ _ => none

/-- The `downloaded_count` reported by a finished or aborted run. -/
def runCount : RunResult → Nat
  | .ok _ c => c
  | .raised _ c => c

/-- Numeric value of a digit character. -/
def digitVal (c : Char) : Nat := c.toNat - 48

/-- The time-of-day (in seconds) represented by a filename of the form
`HHMMSS...`: parse the first six characters as digits. -/
def nameTime (s : String) : Nat :=
  match s.data with
  | a :: b :: c :: d :: e :: f :: _ =>
    (digitVal a * 10 + digitVal b) * 3600 + (digitVal c * 10 + digitVal d) * 60 +
      (digitVal e * 10 + digitVal f)
  | _ => 0

/-- `prepare_data`'s fixed local staging directory,
`os.path.join("data", "prepared", "day=20231101")`. -/
def preparedDir : String := "data/prepared/day=20231101"

/-- `os.path.basename`, line 108: everything after the last slash. -/
def basename (s : String) : String := ⟨(splitChar '/' s.data).getLastD []⟩

/-- The object keys listed by the paginator: pages without a `Contents`
entry contribute nothing. -/
def listedKeys (pages : List (Option (List String))) : List String :=
  pages.flatMap fun pg => pg.getD []

/-- The downloads performed by `prepare_data`, lines 104-112: for each page
with contents, for each key, skip it if its basename is empty, otherwise
download it to `preparedDir/<basename>`. Each download is recorded as the
pair (S3 key, local file path). -/
def prepare_data (pages : List (Option (List String))) : List (String × String) :=
  pages.flatMap fun pg =>
    match pg with
    | none => []
    | some objs =>
      objs.filterMap fun key =>
        if (basename key).isEmpty then none
        else some (key, preparedDir ++ "/" ++ basename key)


/-- The keys a run of the batch loop stores when it completes: one key per
candidate whose fetch answers with status 200. Derived from the name alone
(`keyFor`), never from time or a counter. -/
def storedKeysOf (remote : String → FetchResult) (base : String)
    (names : List String) : List String :=
  names.filterMap fun n =>
    match remote (resolveURL base n) with
    | .resp s _ => if s = 200 then some (keyFor n) else none
    | .exc => none

/-- Modelled from the spec: "a name already absolute — i.e., already a full
URL — is used unmodified". An absolute (full) URL is one carrying an
explicit `http://` or `https://` scheme. Used only to compare the spec's
resolution rule with the code's `startswith("http")` test. -/
def isAbsoluteURL (s : String) : Bool :=
  pyStartsWith s "http://" || pyStartsWith s "https://"

/-! ### Concrete example inputs used by witnesses and counterexamples -/

/-- A listing page with three qualifying links (and some non-qualifying
markup). -/
def docThree : List Node :=
  [Node.anchor (some "a.json"), Node.anchor none, Node.other,
   Node.anchor (some "style.css"), Node.anchor (some "b.json"),
   Node.anchor (some "c.json")]

/-- A listing page with no qualifying links. -/
def docNoLinks : List Node :=
  [Node.other, Node.anchor none, Node.anchor (some "style.css"),
   Node.anchor (some "")]

/-- A remote source that serves every URL with status 200. -/
def remoteOk : String → FetchResult := fun _ => .resp 200 "body"

/-- A remote source that raises a network exception on every URL. -/
def remoteExc : String → FetchResult := fun _ => .exc

/-- A remote source that answers every URL with status 404. -/
def remote404 : String → FetchResult := fun _ => .resp 404 ""

/-- A paginated listing: one page with two keys (one of them ending in a
slash, i.e. with an empty basename) and one page without contents. -/
def pagesTwo : List (Option (List String)) :=
  [some ["raw/day=20231101/x.json.gz", "raw/day=20231101/"], none]

/-! ### Helper lemmas and claim theorems -/

lemma fallbackLinks_length : fallbackLinks.length = 17280 := by
  simp [fallbackLinks, List.length_flatMap, Function.comp_def, List.length_map,
    List.length_range', List.length_range, List.map_const', List.sum_replicate]

lemma pad2_data : ∀ n < 100, (pad2 n).data = [Char.ofNat (48 + n / 10), Char.ofNat (48 + n % 10)] := by
  decide

lemma digitVal_ofNat : ∀ d < 10, digitVal (Char.ofNat (48 + d)) = d := by decide

lemma nameTime_fileName (h m s : Nat) (hh : h < 100) (hm : m < 100) (hs : s < 100) :
    nameTime (fileName h m s) = h * 3600 + m * 60 + s := by
  have ph := pad2_data h hh
  have pm := pad2_data m hm
  have ps := pad2_data s hs
  unfold nameTime fileName
  rw [String.data_append, String.data_append, String.data_append, ph, pm, ps]
  simp only [List.cons_append, List.nil_append]
  rw [digitVal_ofNat _ (by omega), digitVal_ofNat _ (by omega),
    digitVal_ofNat _ (by omega), digitVal_ofNat _ (by omega),
    digitVal_ofNat _ (by omega), digitVal_ofNat _ (by omega)]
  omega

lemma mem_fallbackLinks {x : String} (hx : x ∈ fallbackLinks) :
    ∃ h m s, h < 24 ∧ m < 60 ∧ s < 60 ∧ s % 5 = 0 ∧ x = fileName h m s := by
  simp only [fallbackLinks, List.mem_flatMap, List.mem_map, List.mem_range,
    List.mem_range'] at hx
  obtain ⟨h, hh, m, hm, s, ⟨i, hi, rfl⟩, rfl⟩ := hx
  exact ⟨h, m, 0 + 5 * i, hh, hm, by omega, by omega, rfl⟩

lemma mem_fallback_inner {h : Nat} {x : String}
    (hx : x ∈ (List.range 60).flatMap fun m => (List.range' 0 12 5).map fun s => fileName h m s) :
    ∃ m s, m < 60 ∧ s < 60 ∧ x = fileName h m s := by
  simp only [List.mem_flatMap, List.mem_map, List.mem_range, List.mem_range'] at hx
  obtain ⟨m, hm, s, ⟨i, hi, rfl⟩, rfl⟩ := hx
  exact ⟨m, 0 + 5 * i, hm, by omega, rfl⟩

lemma nameTime_lt {h1 m1 s1 h2 m2 s2 : Nat}
    (hb1 : h1 < 24 ∧ m1 < 60 ∧ s1 < 60) (hb2 : h2 < 24 ∧ m2 < 60 ∧ s2 < 60)
    (hlt : h1 * 3600 + m1 * 60 + s1 < h2 * 3600 + m2 * 60 + s2) :
    nameTime (fileName h1 m1 s1) < nameTime (fileName h2 m2 s2) := by
  rw [nameTime_fileName h1 m1 s1 (by omega) (by omega) (by omega),
    nameTime_fileName h2 m2 s2 (by omega) (by omega) (by omega)]
  exact hlt

lemma fallbackLinks_pairwise :
    fallbackLinks.Pairwise fun a b => nameTime a < nameTime b := by
  unfold fallbackLinks
  rw [List.pairwise_flatMap]
  constructor
  · intro h hh
    rw [List.pairwise_flatMap]
    constructor
    · intro m hm
      rw [List.pairwise_map]
      refine List.Pairwise.imp_of_mem ?_ (List.pairwise_lt_range' 0 12 5 (by omega))
      intro s1 s2 hs1 hs2 hlt
      rw [List.mem_range'] at hs1 hs2
      obtain ⟨i1, hi1, rfl⟩ := hs1
      obtain ⟨i2, hi2, rfl⟩ := hs2
      rw [List.mem_range] at hh hm
      exact nameTime_lt ⟨hh, hm, by omega⟩ ⟨hh, hm, by omega⟩ (by omega)
    · refine List.Pairwise.imp_of_mem ?_ (List.pairwise_lt_range 60)
      intro m1 m2 hm1 hm2 hlt x hx y hy
      rw [List.mem_map] at hx hy
      obtain ⟨s1, hs1, rfl⟩ := hx
      obtain ⟨s2, hs2, rfl⟩ := hy
      rw [List.mem_range'] at hs1 hs2
      obtain ⟨i1, hi1, rfl⟩ := hs1
      obtain ⟨i2, hi2, rfl⟩ := hs2
      rw [List.mem_range] at hh hm1 hm2
      exact nameTime_lt ⟨hh, hm1, by omega⟩ ⟨hh, hm2, by omega⟩ (by omega)
  · refine List.Pairwise.imp_of_mem ?_ (List.pairwise_lt_range 24)
    intro h1 h2 hh1 hh2 hlt x hx y hy
    obtain ⟨m1, s1, hm1, hs1, rfl⟩ := mem_fallback_inner hx
    obtain ⟨m2, s2, hm2, hs2, rfl⟩ := mem_fallback_inner hy
    rw [List.mem_range] at hh1 hh2
    exact nameTime_lt ⟨hh1, hm1, hs1⟩ ⟨hh2, hm2, hs2⟩ (by omega)

/-- Claim C1: the Fallback Generator produces exactly 17,280 candidate
filenames, each of the form `HHMMSSZ.json.gz` with zero-padded two-digit
hour in 0-23, minute in 0-59, second a multiple of 5 below 60, listed in
strictly ascending time-of-day order. -/
theorem claim_C1 :
    fallbackLinks.length = 17280 ∧
    (∀ x ∈ fallbackLinks, ∃ h m s, h < 24 ∧ m < 60 ∧ s < 60 ∧ s % 5 = 0 ∧
      x = pad2 h ++ pad2 m ++ pad2 s ++ "Z.json.gz") ∧
    fallbackLinks.Pairwise fun a b => nameTime a < nameTime b :=
  ⟨fallbackLinks_length, fun _ hx => mem_fallbackLinks hx, fallbackLinks_pairwise⟩


lemma pySliceTo_neg_length (xs : List String) (n : Int) (hn : n < 0) :
    (pySliceTo xs n).length = xs.length - n.natAbs := by
  rw [pySliceTo, if_neg (by omega), List.length_take]
  omega

/-- Claim C3, counterexample: for strictly negative `file_limit` the claim
fails — with three extracted links and `file_limit = -1`, Python's slice
`all_links[:-1]` keeps the first two candidates, so two are attempted and
(under an all-200 remote) two are stored, not zero. -/
theorem claim_C3_counterexample :
    linksToDownload docThree (-1) = ["a.json", "b.json"] ∧
    runCount (download_data docThree remoteOk "B/" (-1) []) = 2 ∧
    (linksToDownload docThree (-1)).length ≠ 0 := by decide

/-- Claim C3, amended: for `file_limit = 0` zero candidates are attempted,
zero are stored, and the operation still returns its success status; for
strictly negative `file_limit = n`, Python slice semantics apply instead:
the first `length - |n|` candidates (all but the last `|n|`) are attempted. -/
theorem claim_C3_amended :
    ∀ (doc : List Node) (remote : String → FetchResult) (base : String) (st : Store),
    (linksToDownload doc 0 = [] ∧
      download_data doc remote base 0 st = RunResult.ok st 0 ∧
      downloadResponse (download_data doc remote base 0 st) = some "OK") ∧
    ∀ n : Int, n < 0 → (linksToDownload doc n).length = (candidates doc).length - n.natAbs := by
  intro doc remote base st
  have h0 : linksToDownload doc 0 = [] := by
    simp [linksToDownload, pySliceTo]
  refine ⟨⟨h0, ?_, ?_⟩, ?_⟩
  · rw [download_data, h0]
    rfl
  · rw [download_data, h0]
    rfl
  · intro n hn
    exact pySliceTo_neg_length _ n hn

theorem claim_C3_amended_witness :
    (-1 : Int) < 0 ∧
    (linksToDownload docThree (-1)).length = (candidates docThree).length - (-1 : Int).natAbs :=
  ⟨by decide, (claim_C3_amended docThree remoteOk "B/" []).2 (-1) (by decide)⟩

/-- Claim C2, counterexample: a network-level exception raised while
fetching an individual candidate is NOT caught at the item level — with two
qualifying candidates and a remote that raises on the first fetch, the batch
aborts immediately (no further candidate is attempted) and the exception
propagates to the caller, who gets an error response instead of "OK". -/
theorem claim_C2_counterexample :
    download_data docThree remoteExc "B/" 2 [] = RunResult.raised [] 0 ∧
    downloadResponse (download_data docThree remoteExc "B/" 2 []) = none := by decide

lemma batchFetch_skip (remote : String → FetchResult) (base name : String)
    (rest : List String) (st : Store) (c : Nat) (s : Nat) (body : String)
    (hresp : remote (resolveURL base name) = FetchResult.resp s body) (hs : s ≠ 200) :
    batchFetch remote base (name :: rest) st c = batchFetch remote base rest st c := by
  simp only [batchFetch, hresp, if_neg hs]

lemma batchFetch_abort (remote : String → FetchResult) (base name : String)
    (rest : List String) (st : Store) (c : Nat)
    (hexc : remote (resolveURL base name) = FetchResult.exc) :
    batchFetch remote base (name :: rest) st c = RunResult.raised st c := by
  simp only [batchFetch, hexc]

lemma batchFetch_ok_of_no_exc (remote : String → FetchResult) (base : String)
    (names : List String) :
    (∀ url, remote url ≠ FetchResult.exc) →
    ∀ (st : Store) (c : Nat), ∃ st' c', batchFetch remote base names st c = RunResult.ok st' c' := by
  intro hremote
  induction names with
  | nil => intro st c; exact ⟨st, c, rfl⟩
  | cons name rest ih =>
    intro st c
    rcases hr : remote (resolveURL base name) with ⟨s, body⟩ | _
    · by_cases hs : s = 200
      · subst hs
        obtain ⟨st', c', h⟩ := ih (storePut st (keyFor name) body) (c + 1)
        exact ⟨st', c', by simp only [batchFetch, hr, if_pos rfl]; exact h⟩
      · obtain ⟨st', c', h⟩ := ih st c
        exact ⟨st', c', by rw [batchFetch_skip remote base name rest st c s body hr hs]; exact h⟩
    · exact absurd hr (hremote _)

/-- Claim C2, amended: a non-success HTTP response on an individual
candidate is handled at the item level and treated as a skip — the batch
continues with the remaining candidates, and if no fetch raises a
network-level exception the whole batch completes normally; a network-level
exception raised while fetching an item, however, is not caught: it aborts
the batch and propagates to the caller. -/
theorem claim_C2_amended :
    ∀ (remote : String → FetchResult) (base : String),
    (∀ (names : List String) (st : Store) (c : Nat),
      (∀ url, remote url ≠ FetchResult.exc) →
      ∃ st' c', batchFetch remote base names st c = RunResult.ok st' c') ∧
    (∀ (name : String) (rest : List String) (st : Store) (c : Nat) (s : Nat) (body : String),
      remote (resolveURL base name) = FetchResult.resp s body → s ≠ 200 →
      batchFetch remote base (name :: rest) st c = batchFetch remote base rest st c) ∧
    (∀ (name : String) (rest : List String) (st : Store) (c : Nat),
      remote (resolveURL base name) = FetchResult.exc →
      batchFetch remote base (name :: rest) st c = RunResult.raised st c) := by
  intro remote base
  exact ⟨fun names st c h => batchFetch_ok_of_no_exc remote base names h st c,
    fun name rest st c s body h hs => batchFetch_skip remote base name rest st c s body h hs,
    fun name rest st c h => batchFetch_abort remote base name rest st c h⟩

theorem claim_C2_amended_witness :
    (∀ url, remoteOk url ≠ FetchResult.exc) ∧
    (∃ st' c', batchFetch remoteOk "B/" ["a.json"] [] 0 = RunResult.ok st' c') :=
  ⟨fun _ h => FetchResult.noConfusion h,
    (claim_C2_amended remoteOk "B/").1 ["a.json"] [] 0 (fun _ h => FetchResult.noConfusion h)⟩

/-- Claim C4: for any `file_limit = N ≥ 0` and any candidate list, the batch
loop is handed exactly the first `min(N, L)` candidates, in their original
order (`take` of the candidate list). -/
theorem claim_C4 :
    ∀ (xs : List String) (doc : List Node) (n : Int), 0 ≤ n →
    pySliceTo xs n = xs.take n.toNat ∧
    (pySliceTo xs n).length = min n.toNat xs.length ∧
    linksToDownload doc n = (candidates doc).take n.toNat ∧
    (linksToDownload doc n).length = min n.toNat (candidates doc).length := by
  intro xs doc n hn
  have h1 : ∀ ys : List String, pySliceTo ys n = ys.take n.toNat := fun ys => by
    rw [pySliceTo, if_pos hn]
  refine ⟨h1 xs, ?_, h1 _, ?_⟩
  · rw [h1 xs, List.length_take]
  · rw [linksToDownload, h1 _, List.length_take]

theorem claim_C4_witness :
    (0 : Int) ≤ 2 ∧
    pySliceTo ["a", "b", "c"] 2 = (["a", "b", "c"] : List String).take (2 : Int).toNat ∧
    (pySliceTo ["a", "b", "c"] 2).length = min (2 : Int).toNat (["a", "b", "c"] : List String).length ∧
    linksToDownload docThree 2 = (candidates docThree).take (2 : Int).toNat ∧
    (linksToDownload docThree 2).length = min (2 : Int).toNat (candidates docThree).length :=
  ⟨by decide, claim_C4 ["a", "b", "c"] docThree 2 (by decide)⟩


lemma mem_pageLinks_of_qualifying {doc : List Node} {h : String}
    (hmem : Node.anchor (some h) ∈ doc) (hq : hrefQualifies h = true) :
    h ∈ pageLinks doc := by
  rw [pageLinks, List.mem_filterMap]
  exact ⟨Node.anchor (some h), hmem, by simp [hq]⟩

lemma pageLinks_eq_nil_of_no_qualifying {doc : List Node}
    (hno : ¬ ∃ h, Node.anchor (some h) ∈ doc ∧ hrefQualifies h = true) :
    pageLinks doc = [] := by
  rw [pageLinks, List.filterMap_eq_nil_iff]
  intro n hn
  match n with
  | .other => rfl
  | .anchor none => rfl
  | .anchor (some h) =>
    have hq : hrefQualifies h = false := by
      by_contra hc
      exact hno ⟨h, hn, by revert hc; cases hrefQualifies h <;> simp⟩
    simp [hq]

/-- Claim C5: the orchestrator invokes the Fallback Generator if and only
if the Extractor's output is empty — any document with at least one
qualifying anchor makes the candidate list equal the extracted links (and
extraction is non-empty, so the generator is never consulted), and any
document with zero qualifying anchors makes the candidate list (before
truncation) equal the full Fallback Generator output. -/
theorem claim_C5 :
    ∀ doc : List Node,
    ((∃ h, Node.anchor (some h) ∈ doc ∧ hrefQualifies h = true) →
      candidates doc = pageLinks doc ∧ pageLinks doc ≠ []) ∧
    ((¬ ∃ h, Node.anchor (some h) ∈ doc ∧ hrefQualifies h = true) →
      candidates doc = fallbackLinks ∧ pageLinks doc = []) := by
  intro doc
  constructor
  · rintro ⟨h, hmem, hq⟩
    have hne : pageLinks doc ≠ [] := by
      intro hnil
      have := mem_pageLinks_of_qualifying hmem hq
      rw [hnil] at this
      exact List.not_mem_nil h this
    refine ⟨?_, hne⟩
    rw [candidates, if_neg (by simpa [List.isEmpty_iff] using hne)]
  · intro hno
    have hnil := pageLinks_eq_nil_of_no_qualifying hno
    exact ⟨by rw [candidates, if_pos (by simp [hnil])], hnil⟩

theorem claim_C5_witness :
    ((∃ h, Node.anchor (some h) ∈ docThree ∧ hrefQualifies h = true) ∧
      candidates docThree = pageLinks docThree ∧ pageLinks docThree ≠ []) ∧
    ((¬ ∃ h, Node.anchor (some h) ∈ docNoLinks ∧ hrefQualifies h = true) ∧
      candidates docNoLinks = fallbackLinks ∧ pageLinks docNoLinks = []) := by
  have hyes : ∃ h, Node.anchor (some h) ∈ docThree ∧ hrefQualifies h = true :=
    ⟨"a.json", by decide, by decide⟩
  have hno : ¬ ∃ h, Node.anchor (some h) ∈ docNoLinks ∧ hrefQualifies h = true := by
    rintro ⟨h, hmem, hq⟩
    simp only [docNoLinks, List.mem_cons, List.not_mem_nil, or_false] at hmem
    rcases hmem with h1 | h1 | h1 | h1
    · exact Node.noConfusion h1
    · injection h1 with h2
      exact Option.noConfusion h2
    · injection h1 with h2
      injection h2 with h3
      subst h3
      exact absurd hq (by decide)
    · injection h1 with h2
      injection h2 with h3
      subst h3
      exact absurd hq (by decide)
  exact ⟨⟨hyes, (claim_C5 docThree).1 hyes⟩, ⟨hno, (claim_C5 docNoLinks).2 hno⟩⟩

lemma hrefQualifies_eq (h : String) : hrefQualifies h = strContains h ".json" := by
  rw [hrefQualifies]
  by_cases he : h.isEmpty
  · have : h = "" := (String.isEmpty_iff h).mp he
    subst this
    decide
  · simp [he]

/-- Claim C8: the Page Link Extractor returns the `href` value of every
anchor whose value contains the `.json` marker, in document order with
duplicates preserved (it is the containment filter of the document's anchor
`href`s), and an input with no matching links yields the empty list rather
than an error. -/
theorem claim_C8 :
    ∀ doc : List Node,
    pageLinks doc = (anchorHrefs doc).filter (fun h => strContains h ".json") ∧
    ((∀ h ∈ anchorHrefs doc, strContains h ".json" = false) → pageLinks doc = []) := by
  intro doc
  have h1 : pageLinks doc = (anchorHrefs doc).filter (fun h => strContains h ".json") := by
    rw [anchorHrefs, List.filter_filterMap, pageLinks]
    congr 1
    funext n
    match n with
    | .anchor (some h) =>
      show (if hrefQualifies h = true then some h else none)
          = Option.filter (fun x => strContains x ".json") (some h)
      rw [hrefQualifies_eq h]
      cases hc : strContains h ".json" <;> simp [Option.filter, hc]
    | .anchor none => rfl
    | .other => rfl
  refine ⟨h1, fun hall => ?_⟩
  rw [h1, List.filter_eq_nil_iff]
  intro a ha
  simp [hall a ha]

theorem claim_C8_witness :
    (∀ h ∈ anchorHrefs docNoLinks, strContains h ".json" = false) ∧
    pageLinks docNoLinks = [] :=
  ⟨by decide, (claim_C8 docNoLinks).2 (by decide)⟩


lemma batchFetch_store (remote : String → FetchResult) (base name : String)
    (rest : List String) (st : Store) (c : Nat) (body : String)
    (hr : remote (resolveURL base name) = FetchResult.resp 200 body) :
    batchFetch remote base (name :: rest) st c
      = batchFetch remote base rest (storePut st (keyFor name) body) (c + 1) := by
  simp only [batchFetch, hr, if_true]

lemma storeGet_storePut (st : Store) (k v : String) :
    storeGet (storePut st k v) k = some v := by
  simp [storeGet, storePut, List.find?]

lemma mem_keys_storePut (st : Store) (k v k' : String) :
    k' ∈ keys (storePut st k v) ↔ k' = k ∨ k' ∈ keys st := by
  by_cases hk : k' = k
  · subst hk
    simp [keys, storePut]
  · simp only [keys, storePut, List.map_cons, List.mem_cons, List.mem_map,
      List.mem_filter, decide_eq_true_eq]
    constructor
    · rintro (h | ⟨p, ⟨hp, _⟩, rfl⟩)
      · exact absurd h hk
      · exact Or.inr ⟨p, hp, rfl⟩
    · rintro (h | ⟨p, hp, rfl⟩)
      · exact absurd h hk
      · exact Or.inr ⟨p, ⟨hp, hk⟩, rfl⟩

lemma storedKeysOf_cons_store (remote : String → FetchResult) (base name : String)
    (rest : List String) (body : String)
    (hr : remote (resolveURL base name) = FetchResult.resp 200 body) :
    storedKeysOf remote base (name :: rest) = keyFor name :: storedKeysOf remote base rest := by
  rw [storedKeysOf, List.filterMap_cons]
  simp only [hr, if_true]
  rfl

lemma storedKeysOf_cons_skip (remote : String → FetchResult) (base name : String)
    (rest : List String) (s : Nat) (body : String)
    (hr : remote (resolveURL base name) = FetchResult.resp s body) (hs : s ≠ 200) :
    storedKeysOf remote base (name :: rest) = storedKeysOf remote base rest := by
  rw [storedKeysOf, List.filterMap_cons]
  simp only [hr]
  rw [if_neg hs]
  rfl

lemma keys_batchFetch_ok (remote : String → FetchResult) (base : String) :
    ∀ (names : List String) (st : Store) (c : Nat) (st' : Store) (c' : Nat),
    batchFetch remote base names st c = RunResult.ok st' c' →
    ∀ k, k ∈ keys st' ↔ (k ∈ keys st ∨ k ∈ storedKeysOf remote base names) := by
  intro names
  induction names with
  | nil =>
    intro st c st' c' h k
    injection h with h1 h2
    subst h1
    simp [storedKeysOf]
  | cons name rest ih =>
    intro st c st' c' h k
    rcases hr : remote (resolveURL base name) with ⟨s, body⟩ | _
    · by_cases hs : s = 200
      · subst hs
        rw [batchFetch_store remote base name rest st c body hr] at h
        rw [ih _ _ _ _ h k, mem_keys_storePut,
          storedKeysOf_cons_store remote base name rest body hr, List.mem_cons]
        tauto
      · rw [batchFetch_skip remote base name rest st c s body hr hs] at h
        rw [ih _ _ _ _ h k, storedKeysOf_cons_skip remote base name rest s body hr hs]
    · rw [batchFetch_abort remote base name rest st c hr] at h
      exact absurd h (by simp)

lemma batchFetch_ok_iff (remote : String → FetchResult) (base : String) :
    ∀ (names : List String) (st : Store) (c : Nat),
    (∃ st' c', batchFetch remote base names st c = RunResult.ok st' c') ↔
    (∀ n ∈ names, remote (resolveURL base n) ≠ FetchResult.exc) := by
  intro names
  induction names with
  | nil =>
    intro st c
    simp only [List.not_mem_nil, false_implies, implies_true, iff_true]
    exact ⟨st, c, rfl⟩
  | cons name rest ih =>
    intro st c
    rw [List.forall_mem_cons]
    rcases hr : remote (resolveURL base name) with ⟨s, body⟩ | _
    · by_cases hs : s = 200
      · subst hs
        rw [show ∀ st c, batchFetch remote base (name :: rest) st c
            = batchFetch remote base rest (storePut st (keyFor name) body) (c + 1) from
          fun st c => batchFetch_store remote base name rest st c body hr]
        rw [ih (storePut st (keyFor name) body) (c + 1)]
        simp [hr]
      · rw [batchFetch_skip remote base name rest st c s body hr hs, ih st c]
        simp [hr]
    · constructor
      · rintro ⟨st', c', h⟩
        rw [batchFetch_abort remote base name rest st c hr] at h
        exact absurd h (by simp)
      · rintro ⟨hname, _⟩
        exact absurd rfl hname

/-- Claim C9: running the Batch Fetcher a second time with the same
candidate list, limit and remote responses completes as well and yields the
same set of stored keys as the first run — keys are derived from the names
alone, so the second run overwrites rather than creates new objects. -/
theorem claim_C9 :
    ∀ (remote : String → FetchResult) (base : String) (names : List String)
      (st st₁ : Store) (c₁ : Nat),
    batchFetch remote base names st 0 = RunResult.ok st₁ c₁ →
    ∃ st₂ c₂, batchFetch remote base names st₁ 0 = RunResult.ok st₂ c₂ ∧
      ∀ k, (k ∈ keys st₂ ↔ k ∈ keys st₁) := by
  intro remote base names st st₁ c₁ h1
  have hnoexc : ∀ n ∈ names, remote (resolveURL base n) ≠ FetchResult.exc :=
    (batchFetch_ok_iff remote base names st 0).mp ⟨st₁, c₁, h1⟩
  obtain ⟨st₂, c₂, h2⟩ := (batchFetch_ok_iff remote base names st₁ 0).mpr hnoexc
  refine ⟨st₂, c₂, h2, fun k => ?_⟩
  have e1 := keys_batchFetch_ok remote base names st 0 st₁ c₁ h1 k
  have e2 := keys_batchFetch_ok remote base names st₁ 0 st₂ c₂ h2 k
  rw [e2, e1]
  tauto

theorem claim_C9_witness :
    batchFetch remoteOk "B/" ["a.json"] [] 0
      = RunResult.ok [("raw/day=20231101/a.json", "body")] 1 ∧
    ∃ st₂ c₂, batchFetch remoteOk "B/" ["a.json"] [("raw/day=20231101/a.json", "body")] 0
      = RunResult.ok st₂ c₂ ∧
      ∀ k, (k ∈ keys st₂ ↔ k ∈ keys [("raw/day=20231101/a.json", "body")]) :=
  ⟨by decide, claim_C9 remoteOk "B/" ["a.json"] [] [("raw/day=20231101/a.json", "body")] 1 (by decide)⟩


/-- Claim C6: every candidate fetched with a 200 response has its body
stored under the key `raw/day=20231101/<f>` where `<f>` is the final
path segment of the candidate name (the key depends only on the name), the
stored counter is incremented exactly once for it, and in any completed run
containing that candidate the key is present in the final store. -/
theorem claim_C6 :
    ∀ (remote : String → FetchResult) (base name : String) (rest : List String)
      (st : Store) (c : Nat) (body : String),
    remote (resolveURL base name) = FetchResult.resp 200 body →
    (batchFetch remote base (name :: rest) st c
        = batchFetch remote base rest (storePut st (keyFor name) body) (c + 1)) ∧
    keyFor name = "raw/day=20231101/" ++ lastSegment name ∧
    storeGet (storePut st (keyFor name) body) (keyFor name) = some body ∧
    (∀ (names : List String) (st₂ : Store) (c₂ : Nat), name ∈ names →
      batchFetch remote base names st c = RunResult.ok st₂ c₂ →
      keyFor name ∈ keys st₂) := by
  intro remote base name rest st c body hr
  refine ⟨batchFetch_store remote base name rest st c body hr, rfl,
    storeGet_storePut st (keyFor name) body, ?_⟩
  intro names st₂ c₂ hmem hok
  rw [keys_batchFetch_ok remote base names st c st₂ c₂ hok (keyFor name)]
  refine Or.inr ?_
  rw [storedKeysOf, List.mem_filterMap]
  exact ⟨name, hmem, by simp [hr]⟩

theorem claim_C6_witness :
    remoteOk (resolveURL "B/" "a.json") = FetchResult.resp 200 "body" ∧
    "a.json" ∈ ["a.json"] ∧
    batchFetch remoteOk "B/" ["a.json"] [] 0
      = RunResult.ok [("raw/day=20231101/a.json", "body")] 1 ∧
    keyFor "a.json" ∈ keys [("raw/day=20231101/a.json", "body")] :=
  ⟨rfl, by decide, by decide,
    (claim_C6 remoteOk "B/" "a.json" [] [] 0 "body" rfl).2.2.2 ["a.json"]
      [("raw/day=20231101/a.json", "body")] 1 (by decide) (by decide)⟩

/-- Claim C10: the prepare operation downloads every listed object key to
the local staging path `data/prepared/day=20231101/<basename of key>`,
except that a key whose final path segment is empty (e.g. ending in a
slash) is silently skipped — it produces no download and no error — and no
other download happens. -/
theorem claim_C10 :
    ∀ pages : List (Option (List String)),
    (∀ k ∈ listedKeys pages, (basename k).isEmpty = false →
      (k, preparedDir ++ "/" ++ basename k) ∈ prepare_data pages) ∧
    (∀ pr ∈ prepare_data pages, pr.1 ∈ listedKeys pages ∧
      (basename pr.1).isEmpty = false ∧ pr.2 = preparedDir ++ "/" ++ basename pr.1) ∧
    (∀ k ∈ listedKeys pages, (basename k).isEmpty = true →
      ∀ p, (k, p) ∉ prepare_data pages) := by
  intro pages
  have h2 : ∀ pr ∈ prepare_data pages, pr.1 ∈ listedKeys pages ∧
      (basename pr.1).isEmpty = false ∧ pr.2 = preparedDir ++ "/" ++ basename pr.1 := by
    intro pr hpr
    rw [prepare_data, List.mem_flatMap] at hpr
    obtain ⟨pg, hpg, hmem⟩ := hpr
    cases pg with
    | none => simp at hmem
    | some objs =>
      simp only [List.mem_filterMap] at hmem
      obtain ⟨k, hk, hsome⟩ := hmem
      by_cases hb : (basename k).isEmpty
      · rw [if_pos hb] at hsome
        exact absurd hsome (by simp)
      · rw [if_neg hb] at hsome
        injection hsome with heq
        subst heq
        refine ⟨?_, by simpa using hb, rfl⟩
        rw [listedKeys, List.mem_flatMap]
        exact ⟨some objs, hpg, by simpa using hk⟩
  refine ⟨?_, h2, ?_⟩
  · intro k hk hb
    rw [listedKeys, List.mem_flatMap] at hk
    obtain ⟨pg, hpg, hkpg⟩ := hk
    cases pg with
    | none => simp at hkpg
    | some objs =>
      rw [prepare_data, List.mem_flatMap]
      refine ⟨some objs, hpg, ?_⟩
      simp only [List.mem_filterMap]
      exact ⟨k, by simpa using hkpg, by rw [if_neg (by simp [hb])]⟩
  · intro k hk hb p hmem
    have := (h2 (k, p) hmem).2.1
    rw [hb] at this
    exact Bool.noConfusion this

theorem claim_C10_witness :
    "raw/day=20231101/x.json.gz" ∈ listedKeys pagesTwo ∧
    (basename "raw/day=20231101/x.json.gz").isEmpty = false ∧
    ("raw/day=20231101/x.json.gz",
      preparedDir ++ "/" ++ basename "raw/day=20231101/x.json.gz") ∈ prepare_data pagesTwo :=
  ⟨by decide, by decide,
    (claim_C10 pagesTwo).1 "raw/day=20231101/x.json.gz" (by decide) (by decide)⟩


/-- Claim C7, counterexample: the code decides "already absolute" by the
prefix test `startswith("http")`, not by being a full URL — the relative
name "httpfoo.json.gz" is not an absolute URL, yet it is used unmodified
instead of being appended to the base URL. -/
theorem claim_C7_counterexample :
    isAbsoluteURL "httpfoo.json.gz" = false ∧
    resolveURL "https://x.test/2023/11/01/" "httpfoo.json.gz" = "httpfoo.json.gz" ∧
    "httpfoo.json.gz" ≠ "https://x.test/2023/11/01/" ++ "httpfoo.json.gz" := by decide

lemma listStarts_append (p q l : List Char) :
    listStarts (p ++ q) l = (listStarts p l && listStarts q (l.drop p.length)) := by
  induction p generalizing l with
  | nil => simp [listStarts]
  | cons a p ih =>
    cases l with
    | nil => simp [listStarts]
    | cons c l => simp [listStarts, ih, Bool.and_assoc]

lemma pyStartsWith_http_of_abs (s : String) (h : isAbsoluteURL s = true) :
    pyStartsWith s "http" = true := by
  rw [isAbsoluteURL, Bool.or_eq_true] at h
  rcases h with h | h
  · rw [pyStartsWith] at h ⊢
    have hd : ("http://" : String).data = ("http" : String).data ++ ("://" : String).data := by decide
    rw [hd, listStarts_append, Bool.and_eq_true] at h
    exact h.1
  · rw [pyStartsWith] at h ⊢
    have hd : ("https://" : String).data = ("http" : String).data ++ ("s://" : String).data := by decide
    rw [hd, listStarts_append, Bool.and_eq_true] at h
    exact h.1

/-- Claim C7, amended: a name starting with the four characters "http" is
used as the fetch URL unmodified (in particular every absolute
`http://`/`https://` URL is), and every name not starting with "http" is
resolved by appending it to the fixed base URL. -/
theorem claim_C7_amended :
    ∀ (base name : String),
    (pyStartsWith name "http" = true → resolveURL base name = name) ∧
    (pyStartsWith name "http" = false → resolveURL base name = base ++ name) ∧
    (isAbsoluteURL name = true → resolveURL base name = name) := by
  intro base name
  refine ⟨fun h => ?_, fun h => ?_, fun h => ?_⟩
  · rw [resolveURL, if_pos h]
  · rw [resolveURL, if_neg (by simp [h])]
  · rw [resolveURL, if_pos (pyStartsWith_http_of_abs name h)]

theorem claim_C7_amended_witness :
    (isAbsoluteURL "https://x.test/a.json" = true ∧
      resolveURL "B/" "https://x.test/a.json" = "https://x.test/a.json") ∧
    (pyStartsWith "a.json" "http" = false ∧
      resolveURL "B/" "a.json" = "B/" ++ "a.json") :=
  ⟨⟨by decide, (claim_C7_amended "B/" "https://x.test/a.json").2.2 (by decide)⟩,
    ⟨by decide, (claim_C7_amended "B/" "a.json").2.1 (by decide)⟩⟩

end S4
